import Mathlib

/-!
Verification of the Spotify music recommendation system
(`recommendation_engine.py` and `data/loader.py`) against its
natural-language specification.

The embedding mirrors the source:
* `RawRow` / `load_full_dataset` model `data/loader.py` after pandas'
  `to_numeric(errors="coerce")` step: an audio-feature cell is `Option ℚ`
  (`none` = missing in the file or unparseable), a metadata cell is
  `Option String` (`none` = missing).  The loader fills, deduplicates by
  `track_id` (keep first) and applies the (dead) `dropna` step.
* `Track` models one row of the cleaned dataframe `self.df`.
* The `MinMaxScaler` is modelled exactly: per-column min/max over the whole
  catalog, a zero range is replaced by 1 (sklearn `handle_zeros_in_scale`),
  transform `v ↦ (v - min) / range`.
* sklearn's `cosine_similarity` L2-normalizes each row, replacing a zero
  norm by 1, then takes dot products.  The value of a similarity is thus
  `d / √p` with `d` the raw dot product and `p > 0` the product of the two
  (zero-guarded) squared norms.  Square roots of rationals are irrational,
  so a similarity is embedded exactly as the pair `Sim = (d, p)` together
  with the decidable order `Sim.le` comparing `d₁/√p₁ ≤ d₂/√p₂` by sign
  analysis and cross-multiplied squares; `Sim.le_iff_val` proves that this
  order is exactly the real-number order of the represented values.
* `np.argsort(sims)[::-1][:n]`'s program-level guarantee is captured by the
  predicate `IsArgsortDescOf`: a permutation of all row positions with
  similarity non-increasing along it, *no specified order on ties* (numpy's
  default introsort is unstable above its small-sort cutoff).  The
  executable model `argsortDesc` fixes one admissible tie order (the stable
  ascending argsort, reversed — on arrays of at most 16 elements, where
  numpy runs insertion sort, this is numpy's actual behaviour);
  `argsortDesc_isArgsortDescOf` proves it a refinement of the guarantee,
  and every exported ordering statement is tie-order invariant.
* `Series.str.contains(pat, na=False)` of `search_tracks` uses pandas'
  `regex=True` default: the pattern is a regular expression, searched with
  `re.search`.  The model `regexSearch` covers the fragment of patterns
  built from literal characters and the `.` wildcard (matching any
  character except a newline, as without `re.DOTALL`) — enough to separate
  regex matching from substring containment; patterns using the other
  metacharacters (quantifiers, classes, groups, anchors — where `re` may
  even raise) are scoped out by hypothesis where it matters.  The
  lowercasing model `strLower` is the per-character ASCII case map (Python's
  `str.lower()` additionally folds non-ASCII letters, which the ASCII-scoped
  statements do not touch).
* The trailing `round(score * 100, 1)` of the source only formats the
  similarity for display; it is a monotone map, so ordering statements are
  made on the underlying similarity values.
-/

/-- The nine audio feature column names, in the fixed order of
`AUDIO_FEATURES` in `data/loader.py`. -/
def audioFeatures : List String :=
  ["danceability", "energy", "loudness", "speechiness",
   "acousticness", "instrumentalness", "liveness", "valence", "tempo"]

/-- One raw CSV row as seen after `pd.to_numeric(..., errors="coerce")`:
feature cells are `none` when missing or unparseable, metadata cells are
`none` when missing (pandas `NaN`). -/
structure RawRow where
  track_id : Option String
  track_name : Option String
  artists : Option String
  album_name : Option String
  genre : Option String
  popularity : ℚ
  danceability : Option ℚ
  energy : Option ℚ
  loudness : Option ℚ
  speechiness : Option ℚ
  acousticness : Option ℚ
  instrumentalness : Option ℚ
  liveness : Option ℚ
  valence : Option ℚ
  tempo : Option ℚ
deriving DecidableEq

/-- One row of the cleaned dataframe `self.df` used by `MusicRecommender`. -/
structure Track where
  track_id : String
  track_name : String
  artists : String
  album_name : String
  genre : String
  popularity : ℚ
  danceability : ℚ
  energy : ℚ
  loudness : ℚ
  speechiness : ℚ
  acousticness : ℚ
  instrumentalness : ℚ
  liveness : ℚ
  valence : ℚ
  tempo : ℚ
deriving DecidableEq

instance : Inhabited Track :=
  ⟨⟨"", "", "", "", "", 0, 0, 0, 0, 0, 0, 0, 0, 0, 0⟩⟩

/-- The column fills of `load_full_dataset`: `astype(str)` turns a missing
id into the string `"nan"`, the metadata `fillna(...)` sentinels, and the
per-feature `pd.to_numeric(...).fillna(0)` replacing a missing or
unparseable feature by `0`. -/
def coerceFill (r : RawRow) : Track where
  track_id := r.track_id.getD "nan"
  track_name := r.track_name.getD "Unknown Track"
  artists := r.artists.getD "Unknown Artist"
  album_name := r.album_name.getD "Unknown Album"
  genre := r.genre.getD "unknown"
  popularity := r.popularity
  danceability := r.danceability.getD 0
  energy := r.energy.getD 0
  loudness := r.loudness.getD 0
  speechiness := r.speechiness.getD 0
  acousticness := r.acousticness.getD 0
  instrumentalness := r.instrumentalness.getD 0
  liveness := r.liveness.getD 0
  valence := r.valence.getD 0
  tempo := r.tempo.getD 0

/-- Pandas `df.drop_duplicates(subset=["track_id"], keep="first")`. -/
def dedupById : List Track → List Track
  | [] => []
  | t :: rest =>
      t :: dedupById (rest.filter (fun u => u.track_id ≠ t.track_id))
termination_by ts => ts.length
decreasing_by
  exact Nat.lt_succ_of_le (List.length_filter_le _ _)

/-- Pandas `df.dropna(subset=AUDIO_FEATURES)`.  It runs after every feature column
was already filled with `fillna(0)`, so no feature cell is `NaN` any more
and the call removes no row: on the cleaned `Track` rows it keeps
everything. -/
def dropnaFeatures (ts : List Track) : List Track :=
  ts.filter (fun _ => true)

/-- The loader `load_full_dataset` of `data/loader.py` (minus the process-wide cache,
which only memoizes this pure computation): fill columns, deduplicate by
id keeping the first occurrence, drop rows with missing features (a no-op
after the fills), reset the index. -/
def load_full_dataset (rows : List RawRow) : List Track :=
  dropnaFeatures (dedupById (rows.map coerceFill))

/-- A raw row still missing at least one audio feature after the
`to_numeric` coercion. -/
def hasMissingFeature (r : RawRow) : Prop :=
  r.danceability = none ∨ r.energy = none ∨ r.loudness = none ∨
  r.speechiness = none ∨ r.acousticness = none ∨ r.instrumentalness = none ∨
  r.liveness = none ∨ r.valence = none ∨ r.tempo = none

instance (r : RawRow) : Decidable (hasMissingFeature r) := by
  unfold hasMissingFeature; infer_instance

/-- The id a raw row ends up with after `astype(str)`. -/
def rawId (r : RawRow) : String :=
  r.track_id.getD "nan"

/-- The feature vector of a cleaned row, in the fixed `AUDIO_FEATURES`
order (`self.df[self.feature_columns].values` row). -/
def feats (t : Track) : List ℚ :=
  [t.danceability, t.energy, t.loudness, t.speechiness, t.acousticness,
   t.instrumentalness, t.liveness, t.valence, t.tempo]

/-- Minimum of a list of rationals (`0` on the empty list, which sklearn
never sees: fitting on an empty matrix raises before this point). -/
def listMin : List ℚ → ℚ
  | [] => 0
  | x :: xs => xs.foldl min x

/-- Maximum of a list of rationals. -/
def listMax : List ℚ → ℚ
  | [] => 0
  | x :: xs => xs.foldl max x

/-- Column `j` of the catalog's feature matrix. -/
def colVals (df : List Track) (j : ℕ) : List ℚ :=
  df.map (fun t => (feats t).getD j 0)

/-- Scaler statistic `MinMaxScaler.data_min_[j]` after `fit` on the catalog. -/
def colMin (df : List Track) (j : ℕ) : ℚ :=
  listMin (colVals df j)

/-- Scaler statistic `MinMaxScaler.data_max_[j]` after `fit` on the catalog. -/
def colMax (df : List Track) (j : ℕ) : ℚ :=
  listMax (colVals df j)

/-- The per-column divisor of the scaler: the catalog-wide range, with a
zero range replaced by `1` (sklearn's `_handle_zeros_in_scale`, which is
what prevents a `0/0` on a zero-variance column). -/
def colScale (df : List Track) (j : ℕ) : ℚ :=
  if colMax df j - colMin df j = 0 then 1 else colMax df j - colMin df j

/-- The `MinMaxScaler.transform` on a single cell of column `j`. -/
def scaleValue (df : List Track) (j : ℕ) (v : ℚ) : ℚ :=
  (v - colMin df j) / colScale df j

/-- The `MinMaxScaler.transform` on one 9-entry feature vector. -/
def scaleRow (df : List Track) (v : List ℚ) : List ℚ :=
  (List.range audioFeatures.length).map (fun j => scaleValue df j (v.getD j 0))

/-- The cached `self.scaled_features = self.scaler.fit_transform(features)`. -/
def scaledFeatures (df : List Track) : List (List ℚ) :=
  df.map (fun t => scaleRow df (feats t))

/-- Dot product of two feature vectors (`numpy` dot, trailing entries of a
longer vector ignored — all vectors here have length 9). -/
def dotProd : List ℚ → List ℚ → ℚ
  | x :: a, y :: b => x * y + dotProd a b
  | _, _ => 0

/-- Squared L2 norm. -/
def sqNorm (a : List ℚ) : ℚ :=
  dotProd a a

/-- The squared norm as used by sklearn `normalize`: a zero norm is
replaced by `1`, which is how `cosine_similarity` avoids dividing by zero
on a zero vector. -/
def sqNormGuard (a : List ℚ) : ℚ :=
  if sqNorm a = 0 then 1 else sqNorm a

theorem dotProd_self_nonneg (a : List ℚ) : 0 ≤ dotProd a a := by
  induction a with
  | nil => simp [dotProd]
  | cons x a ih => unfold dotProd; nlinarith [mul_self_nonneg x]

theorem sqNormGuard_pos (a : List ℚ) : 0 < sqNormGuard a := by
  unfold sqNormGuard
  split
  · norm_num
  · rename_i h
    exact lt_of_le_of_ne (dotProd_self_nonneg a) (Ne.symm h)

/-- An exact cosine-similarity value `d / √p`: `d` is the raw dot product
of the two vectors and `p > 0` the product of their zero-guarded squared
norms.  The real value is irrational in general, so it is carried as this
pair and compared with `Sim.le` below. -/
structure Sim where
  d : ℚ
  p : ℚ
  pos : 0 < p

instance : Inhabited Sim := ⟨⟨0, 1, one_pos⟩⟩

/-- The real number a `Sim` stands for. -/
noncomputable def Sim.val (x : Sim) : ℝ :=
  (x.d : ℝ) / Real.sqrt (x.p : ℝ)

/-- Decidable comparison of two similarity values `x.d/√x.p ≤ y.d/√y.p`,
by sign analysis and cross-multiplied squares (`Sim.le_iff_val` certifies
it against the real-number order). -/
def Sim.le (x y : Sim) : Prop :=
  (x.d ≤ 0 ∧ 0 ≤ y.d) ∨
  (0 ≤ x.d ∧ 0 ≤ y.d ∧ x.d ^ 2 * y.p ≤ y.d ^ 2 * x.p) ∨
  (x.d ≤ 0 ∧ y.d ≤ 0 ∧ y.d ^ 2 * x.p ≤ x.d ^ 2 * y.p)

instance (x y : Sim) : Decidable (Sim.le x y) := by
  unfold Sim.le; infer_instance

/-- The function `sklearn.metrics.pairwise.cosine_similarity` on one pair of rows. -/
def cosineSim (a b : List ℚ) : Sim :=
  ⟨dotProd a b, sqNormGuard a * sqNormGuard b,
   mul_pos (sqNormGuard_pos a) (sqNormGuard_pos b)⟩

/-- The `similarities[idx] = -1` sentinel of `get_recommendations`. -/
def simNegOne : Sim := ⟨-1, 1, one_pos⟩

/-- A similarity whose value is exactly `0`. -/
def simZero : Sim := ⟨0, 1, one_pos⟩

/-- The order `Sim.le` decides exactly the real-number order of the represented
similarity values `d / √p`. -/
theorem Sim.le_iff_val (x y : Sim) : Sim.le x y ↔ x.val ≤ y.val := by
  obtain ⟨a, p, hp⟩ := x
  obtain ⟨b, q, hq⟩ := y
  simp only [Sim.le, Sim.val]
  have hp' : (0 : ℝ) < (p : ℝ) := by exact_mod_cast hp
  have hq' : (0 : ℝ) < (q : ℝ) := by exact_mod_cast hq
  have hsp : 0 < Real.sqrt (p : ℝ) := Real.sqrt_pos.mpr hp'
  have hsq : 0 < Real.sqrt (q : ℝ) := Real.sqrt_pos.mpr hq'
  have hp2 : Real.sqrt (p : ℝ) ^ 2 = (p : ℝ) := Real.sq_sqrt hp'.le
  have hq2 : Real.sqrt (q : ℝ) ^ 2 = (q : ℝ) := Real.sq_sqrt hq'.le
  rw [div_le_div_iff hsp hsq]
  constructor
  · rintro (⟨ha, hb⟩ | ⟨ha, hb, hc⟩ | ⟨ha, hb, hc⟩)
    · have ha' : (a : ℝ) ≤ 0 := by exact_mod_cast ha
      have hb' : (0 : ℝ) ≤ (b : ℝ) := by exact_mod_cast hb
      nlinarith
    · have ha' : (0 : ℝ) ≤ (a : ℝ) := by exact_mod_cast ha
      have hb' : (0 : ℝ) ≤ (b : ℝ) := by exact_mod_cast hb
      have hc' : (a : ℝ) ^ 2 * (q : ℝ) ≤ (b : ℝ) ^ 2 * (p : ℝ) := by
        exact_mod_cast hc
      have hsq1 : ((a : ℝ) * Real.sqrt q) ^ 2 ≤ ((b : ℝ) * Real.sqrt p) ^ 2 := by
        calc ((a : ℝ) * Real.sqrt q) ^ 2 = (a : ℝ) ^ 2 * (q : ℝ) := by
              rw [mul_pow, hq2]
          _ ≤ (b : ℝ) ^ 2 * (p : ℝ) := hc'
          _ = ((b : ℝ) * Real.sqrt p) ^ 2 := by rw [mul_pow, hp2]
      exact le_of_pow_le_pow_left two_ne_zero
        (mul_nonneg hb' hsp.le) hsq1
    · have ha' : (a : ℝ) ≤ 0 := by exact_mod_cast ha
      have hb' : (b : ℝ) ≤ 0 := by exact_mod_cast hb
      have hc' : (b : ℝ) ^ 2 * (p : ℝ) ≤ (a : ℝ) ^ 2 * (q : ℝ) := by
        exact_mod_cast hc
      have hsq1 : (-((b : ℝ) * Real.sqrt p)) ^ 2 ≤ (-((a : ℝ) * Real.sqrt q)) ^ 2 := by
        calc (-((b : ℝ) * Real.sqrt p)) ^ 2 = (b : ℝ) ^ 2 * (p : ℝ) := by
              rw [neg_pow, mul_pow, hp2]; ring
          _ ≤ (a : ℝ) ^ 2 * (q : ℝ) := hc'
          _ = (-((a : ℝ) * Real.sqrt q)) ^ 2 := by rw [neg_pow, mul_pow, hq2]; ring
      have := le_of_pow_le_pow_left two_ne_zero
        (by nlinarith : (0 : ℝ) ≤ -((a : ℝ) * Real.sqrt q)) hsq1
      linarith
  · intro h
    rcases le_or_lt a 0 with ha | ha
    · rcases le_or_lt 0 b with hb | hb
      · exact Or.inl ⟨ha, hb⟩
      · refine Or.inr (Or.inr ⟨ha, hb.le, ?_⟩)
        have ha' : (a : ℝ) ≤ 0 := by exact_mod_cast ha
        have hb' : (b : ℝ) < 0 := by exact_mod_cast hb
        have h1 : (0 : ℝ) ≤ -((b : ℝ) * Real.sqrt p) := by nlinarith
        have h2 : -((b : ℝ) * Real.sqrt p) ≤ -((a : ℝ) * Real.sqrt q) := by linarith
        have hfin : (b : ℝ) ^ 2 * (p : ℝ) ≤ (a : ℝ) ^ 2 * (q : ℝ) := by
          rw [← hp2, ← hq2]
          nlinarith [h1, h2]
        exact_mod_cast hfin
    · have ha' : (0 : ℝ) < (a : ℝ) := by exact_mod_cast ha
      have hb : (0 : ℝ) ≤ (b : ℝ) := by
        by_contra hb
        push_neg at hb
        nlinarith
      have hb' : (0 : ℚ) ≤ b := by exact_mod_cast hb
      refine Or.inr (Or.inl ⟨ha.le, hb', ?_⟩)
      have h1 : (0 : ℝ) ≤ (a : ℝ) * Real.sqrt q := by positivity
      have := pow_le_pow_left h1 h 2
      have hfin : (a : ℝ) ^ 2 * (q : ℝ) ≤ (b : ℝ) ^ 2 * (p : ℝ) := by
        rw [mul_pow, mul_pow, hp2, hq2] at this
        exact this
      exact_mod_cast hfin

theorem Sim.le_refl (x : Sim) : Sim.le x x :=
  (Sim.le_iff_val x x).mpr le_rfl

theorem Sim.le_total (x y : Sim) : Sim.le x y ∨ Sim.le y x := by
  rcases LinearOrder.le_total x.val y.val with h | h
  · exact Or.inl ((Sim.le_iff_val x y).mpr h)
  · exact Or.inr ((Sim.le_iff_val y x).mpr h)

theorem Sim.le_trans {x y z : Sim} (h1 : Sim.le x y) (h2 : Sim.le y z) :
    Sim.le x z :=
  (Sim.le_iff_val x z).mpr
    (((Sim.le_iff_val x y).mp h1).trans ((Sim.le_iff_val y z).mp h2))

/-- The comparison `np.argsort` effectively uses on positions of the score
array `s`: ascending by similarity value, ties by ascending position
(stability of the sort). -/
def idxLe (s : List Sim) (i j : ℕ) : Prop :=
  (¬ Sim.le (s.getD j default) (s.getD i default)) ∨
  (Sim.le (s.getD i default) (s.getD j default) ∧
   Sim.le (s.getD j default) (s.getD i default) ∧ i ≤ j)

instance (s : List Sim) : DecidableRel (idxLe s) := by
  unfold idxLe; infer_instance

theorem idxLe_iff (s : List Sim) (i j : ℕ) :
    idxLe s i j ↔
      ((s.getD i default).val < (s.getD j default).val ∨
       ((s.getD i default).val = (s.getD j default).val ∧ i ≤ j)) := by
  unfold idxLe
  rw [Sim.le_iff_val, Sim.le_iff_val, not_le]
  constructor
  · rintro (h | ⟨h1, h2, h3⟩)
    · exact Or.inl h
    · exact Or.inr ⟨le_antisymm h1 h2, h3⟩
  · rintro (h | ⟨h1, h2⟩)
    · exact Or.inl h
    · exact Or.inr ⟨le_of_eq h1, le_of_eq h1.symm, h2⟩

instance (s : List Sim) : IsTotal ℕ (idxLe s) := by
  constructor
  intro i j
  rw [idxLe_iff, idxLe_iff]
  rcases lt_trichotomy (s.getD i default).val (s.getD j default).val with h | h | h
  · exact Or.inl (Or.inl h)
  · rcases Nat.le_total i j with hij | hij
    · exact Or.inl (Or.inr ⟨h, hij⟩)
    · exact Or.inr (Or.inr ⟨h.symm, hij⟩)
  · exact Or.inr (Or.inl h)

instance (s : List Sim) : IsTrans ℕ (idxLe s) := by
  constructor
  intro i j k hij hjk
  rw [idxLe_iff] at hij hjk ⊢
  rcases hij with h1 | ⟨h1, h1'⟩ <;> rcases hjk with h2 | ⟨h2, h2'⟩
  · exact Or.inl (h1.trans h2)
  · exact Or.inl (h2 ▸ h1)
  · exact Or.inl (h1 ▸ h2)
  · exact Or.inr ⟨h1.trans h2, h1'.trans h2'⟩

/-- An executable refinement of ascending `np.argsort` over the score list
`s`: the positions `0, …, len-1` sorted by score, with ties resolved in
increasing position order.  `np.argsort` itself promises only an ascending
arrangement — its default introsort is unstable above the 16-element
insertion-sort cutoff, so the program guarantees no particular tie order;
this definition fixes one admissible outcome (the one numpy produces on
small arrays).  Exported statements rely only on the tie-order-independent
guarantee, stated separately as `IsArgsortDescOf`. -/
def argsortAsc (s : List Sim) : List ℕ :=
  List.insertionSort (idxLe s) (List.range s.length)

/-- The model of `np.argsort(s)[::-1]`: the ascending argsort refinement
reversed, i.e. descending by score.  The resulting tie order (decreasing
position) is an artifact of the fixed refinement in `argsortAsc`, not a
program guarantee; `argsortDesc_isArgsortDescOf` below states the part the
program does guarantee. -/
def argsortDesc (s : List Sim) : List ℕ :=
  (argsortAsc s).reverse

theorem argsortDesc_perm (s : List Sim) :
    (argsortDesc s).Perm (List.range s.length) :=
  (List.reverse_perm _).trans (List.perm_insertionSort _ _)

theorem argsortDesc_length (s : List Sim) :
    (argsortDesc s).length = s.length := by
  rw [(argsortDesc_perm s).length_eq, List.length_range]

theorem mem_argsortDesc (s : List Sim) (i : ℕ) :
    i ∈ argsortDesc s ↔ i < s.length := by
  rw [(argsortDesc_perm s).mem_iff, List.mem_range]

theorem argsortDesc_nodup (s : List Sim) : (argsortDesc s).Nodup :=
  ((argsortDesc_perm s).nodup_iff).mpr (List.nodup_range _)

theorem argsortDesc_pairwise (s : List Sim) :
    (argsortDesc s).Pairwise (fun i j => idxLe s j i) := by
  have h : (argsortAsc s).Pairwise (idxLe s) :=
    List.sorted_insertionSort (idxLe s) (List.range s.length)
  exact (List.pairwise_reverse).mpr h

/-- Everything `np.argsort(s)[::-1]` guarantees about its output,
independent of how the unstable sort arranges equal scores: it is a
permutation of all row positions along which the similarity values are
non-increasing.  Any tie order satisfies this predicate. -/
def IsArgsortDescOf (s : List Sim) (out : List ℕ) : Prop :=
  out.Perm (List.range s.length) ∧
  out.Pairwise (fun i j => Sim.le (s.getD j default) (s.getD i default))

instance (s : List Sim) (out : List ℕ) : Decidable (IsArgsortDescOf s out) := by
  unfold IsArgsortDescOf; infer_instance

theorem argsortDesc_isArgsortDescOf (s : List Sim) :
    IsArgsortDescOf s (argsortDesc s) := by
  refine ⟨argsortDesc_perm s, ?_⟩
  refine (argsortDesc_pairwise s).imp ?_
  intro i j hij
  rcases hij with h | ⟨h1, _, _⟩
  · rcases Sim.le_total (s.getD j default) (s.getD i default) with h' | h'
    · exact h'
    · exact absurd h' h
  · exact h1

/-- Python's `str.lower()`: lowercase the string character by character.
(`String.toLower` computes the same list of characters, but its
`String.mapAux` core is irreducible, so the per-character form is used to
keep every definition kernel-evaluable.) -/
def strLower (s : String) : String :=
  ⟨s.data.map Char.toLower⟩

/-- The lookup `self.df[self.df['track_id'] == str(track_id)].index[0]` guarded by
`try/except IndexError`: the positional index of the first row whose id
matches, `none` when no row matches. -/
def findTrackIdx? (tid : String) : List Track → Option ℕ
  | [] => none
  | t :: rest =>
      if t.track_id = tid then some 0
      else (findTrackIdx? tid rest).map (· + 1)

/-- The array `similarities = cosine_similarity(seed_features, self.scaled_features)[0]`
for the seed at row `idx`. -/
def seedSims (df : List Track) (idx : ℕ) : List Sim :=
  (scaledFeatures df).map (cosineSim ((scaledFeatures df).getD idx []))

/-- The mask `np.where(mask)[0]` of `get_recommendations`: the row positions whose
`artists` differs from the seed's, with the seed's own position forced out
(`mask[idx] = False`). -/
def validIndices (df : List Track) (idx : ℕ) : List ℕ :=
  (List.range df.length).filter
    (fun i => ((df.getD i default).artists != (df.getD idx default).artists)
      && (i != idx))

/-- The `(top_indices, top_scores)` pairs of `get_recommendations`, for
seed row `idx`.  Without artist exclusion the seed's similarity is forced
to `-1` and the top `n` of all rows is taken; with exclusion the argsort
runs over the similarities of the valid rows only and local positions are
mapped back to catalog row positions. -/
def seedTop (df : List Track) (idx n : ℕ) (excl : Bool) : List (ℕ × Sim) :=
  if excl then
    let valid := validIndices df idx
    let validSims := valid.map (fun i => (seedSims df idx).getD i default)
    ((argsortDesc validSims).take n).map
      (fun j => (valid.getD j 0, validSims.getD j default))
  else
    let sims2 := (seedSims df idx).set idx simNegOne
    ((argsortDesc sims2).take n).map (fun i => (i, sims2.getD i default))

/-- The catalog row positions selected by `get_recommendations`
(the source's `top_indices`). -/
def seedTopIndices (df : List Track) (idx n : ℕ) (excl : Bool) : List ℕ :=
  (seedTop df idx n excl).map Prod.fst

/-- The method `MusicRecommender.get_recommendations`: each returned record is the
catalog row together with its attached similarity score. -/
def getRecommendations (df : List Track) (tid : String) (n : ℕ)
    (excl : Bool) : List (Track × Sim) :=
  match findTrackIdx? tid df with
  | none => []
  | some idx =>
      (seedTop df idx n excl).map (fun pr => (df.getD pr.1 default, pr.2))

/-- The query `feature_vector` of `get_recommendations_by_features`: each
of the nine features is read from the input mapping, with the source's
hard-coded default when the key is absent. -/
def queryVector (fd : List (String × ℚ)) : List ℚ :=
  [(fd.lookup "danceability").getD (1/2),
   (fd.lookup "energy").getD (1/2),
   (fd.lookup "loudness").getD (-10),
   (fd.lookup "speechiness").getD (1/10),
   (fd.lookup "acousticness").getD (1/2),
   (fd.lookup "instrumentalness").getD 0,
   (fd.lookup "liveness").getD (1/5),
   (fd.lookup "valence").getD (1/2),
   (fd.lookup "tempo").getD 120]

/-- The array `cosine_similarity(scaled_vector, self.scaled_features)[0]` for a
custom feature query: the query vector passes through the frozen scaler
before comparison. -/
def featSims (df : List Track) (fd : List (String × ℚ)) : List Sim :=
  (scaledFeatures df).map (cosineSim (scaleRow df (queryVector fd)))

/-- The `(top_indices, similarity)` pairs of
`get_recommendations_by_features`. -/
def featTop (df : List Track) (fd : List (String × ℚ)) (n : ℕ) :
    List (ℕ × Sim) :=
  ((argsortDesc (featSims df fd)).take n).map
    (fun i => (i, (featSims df fd).getD i default))

/-- The row positions selected by `get_recommendations_by_features`. -/
def featTopIndices (df : List Track) (fd : List (String × ℚ)) (n : ℕ) :
    List ℕ :=
  (featTop df fd n).map Prod.fst

/-- The method `MusicRecommender.get_recommendations_by_features`. -/
def getRecommendationsByFeatures (df : List Track) (fd : List (String × ℚ))
    (n : ℕ) : List (Track × Sim) :=
  (featTop df fd n).map (fun pr => (df.getD pr.1 default, pr.2))

/-- The `mood_presets` table of `get_mood_based_recommendations`, with each
preset's partial feature mapping in source order. -/
def moodPresets : List (String × List (String × ℚ)) :=
  [("happy", [("valence", 8/10), ("energy", 7/10), ("danceability", 7/10)]),
   ("sad", [("valence", 2/10), ("energy", 3/10), ("acousticness", 6/10)]),
   ("energetic", [("energy", 9/10), ("tempo", 140), ("danceability", 7/10)]),
   ("chill", [("energy", 3/10), ("acousticness", 7/10), ("valence", 5/10)]),
   ("party", [("danceability", 9/10), ("energy", 8/10), ("valence", 7/10)]),
   ("focus", [("instrumentalness", 7/10), ("speechiness", 5/100), ("energy", 4/10)])]

/-- The method `MusicRecommender.get_mood_based_recommendations`: case-insensitive
lookup in the preset table, delegating to the feature-vector path; an
unknown mood returns the empty list. -/
def getMoodBasedRecommendations (df : List Track) (mood : String) (n : ℕ) :
    List (Track × Sim) :=
  match moodPresets.lookup  (strLower mood) with
  | none => []
  | some preset => getRecommendationsByFeatures df preset n

/-- The characters Python's `re` treats as metacharacters.  A pattern
avoiding all of them is matched purely literally by `re.search`. -/
def regexMetachars : List Char :=
  ['.', '^', '$', '*', '+', '?', '\x7b', '\x7d', '[', ']', '\\', '|', '(', ')']

/-- One anchored step of `re.search` on the modelled pattern fragment
(literal characters plus the `.` wildcard): does the pattern match a
prefix of `s`?  The `.` wildcard matches any character except a newline
(the default, without `re.DOTALL`). -/
def matchHere : List Char → List Char → Bool
  | [], _ => true
  | _ :: _, [] => false
  | p :: ps, c :: cs =>
      ((p == '.' && !(c == '\n')) || p == c) && matchHere ps cs

/-- Python's `re.search` on the modelled fragment: try the anchored match
at every start position of `s`. -/
def regexSearch (pat : List Char) : List Char → Bool
  | [] => matchHere pat []
  | c :: rest => matchHere pat (c :: rest) || regexSearch pat rest

/-- The row predicate of `search_tracks`: pandas
`Series.str.contains(query, na=False)` with its `regex=True` default, so
the lowercased query is a *regular expression* searched inside the
lowercased track name or the lowercased artists field; `na=False` never
fires because the loader filled both columns.  The regex engine is
modelled on the literal-plus-`.` fragment (`regexSearch`). -/
def matchesQuery (q : String) (t : Track) : Bool :=
  regexSearch (strLower q).data (strLower t.track_name).data ||
  regexSearch (strLower q).data (strLower t.artists).data

/-- The method `MusicRecommender.search_tracks`. -/
def searchTracks (df : List Track) (query : String) : List Track :=
  df.filter (matchesQuery query)

theorem foldl_min_le_init (l : List ℚ) (a : ℚ) : l.foldl min a ≤ a := by
  induction l generalizing a with
  | nil => exact le_rfl
  | cons z zs ih => exact le_trans (ih (min a z)) (min_le_left _ _)

theorem foldl_min_le_mem (l : List ℚ) (a : ℚ) :
    ∀ x ∈ l, l.foldl min a ≤ x := by
  induction l generalizing a with
  | nil => intro x hx; simp at hx
  | cons z zs ih =>
    intro x hx
    rcases List.mem_cons.mp hx with rfl | hx'
    · exact le_trans (foldl_min_le_init zs (min a x)) (min_le_right _ _)
    · exact ih (min a z) x hx'

theorem init_le_foldl_max (l : List ℚ) (a : ℚ) : a ≤ l.foldl max a := by
  induction l generalizing a with
  | nil => exact le_rfl
  | cons z zs ih => exact le_trans (le_max_left _ _) (ih (max a z))

theorem mem_le_foldl_max (l : List ℚ) (a : ℚ) :
    ∀ x ∈ l, x ≤ l.foldl max a := by
  induction l generalizing a with
  | nil => intro x hx; simp at hx
  | cons z zs ih =>
    intro x hx
    rcases List.mem_cons.mp hx with rfl | hx'
    · exact le_trans (le_max_right _ _) (init_le_foldl_max zs (max a x))
    · exact ih (max a z) x hx'

theorem listMin_le_of_mem {l : List ℚ} {x : ℚ} (hx : x ∈ l) :
    listMin l ≤ x := by
  match l with
  | y :: ys =>
    show ys.foldl min y ≤ x
    rcases List.mem_cons.mp hx with rfl | hx'
    · exact foldl_min_le_init ys x
    · exact foldl_min_le_mem ys y x hx'

theorem le_listMax_of_mem {l : List ℚ} {x : ℚ} (hx : x ∈ l) :
    x ≤ listMax l := by
  match l with
  | y :: ys =>
    show x ≤ ys.foldl max y
    rcases List.mem_cons.mp hx with rfl | hx'
    · exact init_le_foldl_max ys x
    · exact mem_le_foldl_max ys y x hx'

theorem colMin_le_colMax {df : List Track} {j : ℕ} (hdf : df ≠ []) :
    colMin df j ≤ colMax df j := by
  obtain ⟨t, ts, rfl⟩ := List.exists_cons_of_ne_nil hdf
  have hmem : (feats t).getD j 0 ∈ colVals (t :: ts) j := by
    simp [colVals]
  exact le_trans (listMin_le_of_mem hmem) (le_listMax_of_mem hmem)

theorem colScale_pos (df : List Track) (j : ℕ) (hdf : df ≠ []) :
    0 < colScale df j := by
  unfold colScale
  split
  · norm_num
  · rename_i h
    have hmm : colMin df j ≤ colMax df j := colMin_le_colMax hdf
    rcases lt_or_eq_of_le hmm with h' | h'
    · linarith
    · exact absurd (by linarith) h

theorem scaleValue_nonneg {df : List Track} {t : Track} (ht : t ∈ df)
    (j : ℕ) : 0 ≤ scaleValue df j ((feats t).getD j 0) := by
  have hdf : df ≠ [] := List.ne_nil_of_mem ht
  have hmin : colMin df j ≤ (feats t).getD j 0 :=
    listMin_le_of_mem (by simp only [colVals, List.mem_map]; exact ⟨t, ht, rfl⟩)
  unfold scaleValue
  exact div_nonneg (by linarith) (colScale_pos df j hdf).le

theorem scaleRow_mem_nonneg {df : List Track} {t : Track} (ht : t ∈ df) :
    ∀ x ∈ scaleRow df (feats t), 0 ≤ x := by
  intro x hx
  simp only [scaleRow, List.mem_map, List.mem_range] at hx
  obtain ⟨j, _, rfl⟩ := hx
  exact scaleValue_nonneg ht j

theorem scaledFeatures_getD_nonneg (df : List Track) (i : ℕ) :
    ∀ x ∈ (scaledFeatures df).getD i [], 0 ≤ x := by
  by_cases h : i < (scaledFeatures df).length
  · have h1 : (scaledFeatures df).getD i [] ∈ scaledFeatures df := by
      rw [List.getD_eq_getElem _ _ h]
      exact List.getElem_mem h
    have h2 : ∃ t ∈ df, scaleRow df (feats t) = (scaledFeatures df).getD i [] :=
      List.mem_map.mp h1
    obtain ⟨t, ht, heq⟩ := h2
    rw [← heq]
    exact scaleRow_mem_nonneg ht
  · rw [List.getD_eq_default _ _ (not_lt.mp h)]
    intro x hx
    simp at hx

theorem dotProd_nonneg {a b : List ℚ} (ha : ∀ x ∈ a, 0 ≤ x)
    (hb : ∀ x ∈ b, 0 ≤ x) : 0 ≤ dotProd a b := by
  induction a generalizing b with
  | nil => simp [dotProd]
  | cons x a ih =>
    match b with
    | [] => simp [dotProd]
    | y :: b =>
      unfold dotProd
      have hx : 0 ≤ x := ha x (by simp)
      have hy : 0 ≤ y := hb y (by simp)
      have hrec : 0 ≤ dotProd a b :=
        ih (fun z hz => ha z (by simp [hz]))
          (fun z hz => hb z (by simp [hz]))
      nlinarith

theorem dotProd_eq_zero_of_sqNorm_eq_zero {a : List ℚ} (h : sqNorm a = 0) :
    ∀ b, dotProd a b = 0 := by
  unfold sqNorm at h
  induction a with
  | nil => intro b; rcases b <;> simp [dotProd]
  | cons x a ih =>
    intro b
    unfold dotProd at h
    have hx2 : 0 ≤ x * x := mul_self_nonneg x
    have ha : 0 ≤ dotProd a a := dotProd_self_nonneg a
    have hx : x = 0 := by nlinarith
    have ha0 : dotProd a a = 0 := by nlinarith
    match b with
    | [] => simp [dotProd]
    | y :: b =>
      unfold dotProd
      rw [hx, ih ha0 b]
      ring

theorem findTrackIdx?_lt {tid : String} {df : List Track} {idx : ℕ}
    (h : findTrackIdx? tid df = some idx) : idx < df.length := by
  induction df generalizing idx with
  | nil => simp [findTrackIdx?] at h
  | cons t rest ih =>
    unfold findTrackIdx? at h
    split at h
    · cases h
      simp
    · rcases Option.map_eq_some'.mp h with ⟨idx', h1, rfl⟩
      have := ih h1
      simp
      omega

theorem findTrackIdx?_id {tid : String} {df : List Track} {idx : ℕ}
    (h : findTrackIdx? tid df = some idx) :
    (df.getD idx default).track_id = tid := by
  induction df generalizing idx with
  | nil => simp [findTrackIdx?] at h
  | cons t rest ih =>
    unfold findTrackIdx? at h
    split at h
    · cases h
      rename_i heq
      simpa using heq
    · rcases Option.map_eq_some'.mp h with ⟨idx', h1, rfl⟩
      simpa using ih h1

theorem seedSims_length (df : List Track) (idx : ℕ) :
    (seedSims df idx).length = df.length := by
  simp [seedSims, scaledFeatures]

theorem seedSims_getD_eq (df : List Track) (idx : ℕ) {j : ℕ}
    (hj : j < df.length) :
    (seedSims df idx).getD j default =
      cosineSim ((scaledFeatures df).getD idx [])
        ((scaledFeatures df).getD j []) := by
  have hj1 : j < (seedSims df idx).length := by rwa [seedSims_length]
  have hj2 : j < (scaledFeatures df).length := by
    simpa [scaledFeatures] using hj
  rw [List.getD_eq_getElem _ _ hj1, List.getD_eq_getElem _ _ hj2]
  simp [seedSims]

theorem seedSims_getD_d_nonneg (df : List Track) (idx : ℕ) {j : ℕ}
    (hj : j < df.length) :
    0 ≤ ((seedSims df idx).getD j default).d := by
  rw [seedSims_getD_eq df idx hj]
  exact dotProd_nonneg (scaledFeatures_getD_nonneg df idx)
    (scaledFeatures_getD_nonneg df j)

theorem simNegOne_le {x : Sim} (hd : 0 ≤ x.d) : Sim.le simNegOne x :=
  Or.inl ⟨by norm_num [simNegOne], hd⟩

theorem not_le_simNegOne {x : Sim} (hd : 0 ≤ x.d) : ¬ Sim.le x simNegOne := by
  rintro (⟨h1, h2⟩ | ⟨h1, h2, h3⟩ | ⟨h1, h2, h3⟩)
  · simp only [simNegOne] at h2
    linarith
  · simp only [simNegOne] at h2
    linarith
  · simp only [simNegOne] at h3
    have hx0 : x.d = 0 := le_antisymm h1 hd
    rw [hx0] at h3
    have := x.pos
    nlinarith

theorem argsortDesc_spec (s : List Sim) {a b : ℕ} (hab : a < b)
    (hb : b < (argsortDesc s).length) :
    idxLe s ((argsortDesc s).getD b 0) ((argsortDesc s).getD a 0) ∧
    (argsortDesc s).getD a 0 ≠ (argsortDesc s).getD b 0 ∧
    (argsortDesc s).getD a 0 < s.length ∧
    (argsortDesc s).getD b 0 < s.length := by
  have ha : a < (argsortDesc s).length := lt_trans hab hb
  rw [List.getD_eq_getElem _ _ ha, List.getD_eq_getElem _ _ hb]
  refine ⟨?_, ?_, ?_, ?_⟩
  · exact (List.pairwise_iff_getElem.mp (argsortDesc_pairwise s)) a b ha hb hab
  · intro hcon
    exact absurd ((argsortDesc_nodup s).getElem_inj_iff.mp hcon) (Nat.ne_of_lt hab)
  · exact (mem_argsortDesc s _).mp (List.getElem_mem ha)
  · exact (mem_argsortDesc s _).mp (List.getElem_mem hb)

theorem map_fst_pairD (l : List ℕ) (g : ℕ → ℕ) (f : ℕ → Sim) :
    (l.map (fun j => (g j, f j))).map Prod.fst = l.map g := by
  rw [List.map_map]
  exact List.map_congr_left (fun a _ => rfl)

theorem map_fst_pair (l : List ℕ) (f : ℕ → Sim) :
    (l.map (fun j => (j, f j))).map Prod.fst = l := by
  rw [List.map_map]
  exact List.map_id _

theorem seedTopIndices_false (df : List Track) (idx n : ℕ) :
    seedTopIndices df idx n false =
      (argsortDesc ((seedSims df idx).set idx simNegOne)).take n :=
  map_fst_pair _ _

theorem seedTopIndices_true (df : List Track) (idx n : ℕ) :
    seedTopIndices df idx n true =
      ((argsortDesc ((validIndices df idx).map
          (fun i => (seedSims df idx).getD i default))).take n).map
        (fun j => (validIndices df idx).getD j 0) :=
  map_fst_pairD _ _ _

theorem validIndices_getD_mem (df : List Track) (idx : ℕ) {j : ℕ}
    (hj : j < (validIndices df idx).length) :
    (validIndices df idx).getD j 0 ∈ validIndices df idx := by
  rw [List.getD_eq_getElem _ _ hj]
  exact List.getElem_mem hj

theorem validIndices_spec (df : List Track) (idx : ℕ) {i : ℕ}
    (hi : i ∈ validIndices df idx) :
    i < df.length ∧ (df.getD i default).artists ≠ (df.getD idx default).artists ∧
      i ≠ idx := by
  unfold validIndices at hi
  rw [List.mem_filter, List.mem_range] at hi
  obtain ⟨h1, h2⟩ := hi
  rw [Bool.and_eq_true, bne_iff_ne, bne_iff_ne] at h2
  exact ⟨h1, h2.1, h2.2⟩

/-- C1: `get_recommendations` never returns the seed row itself when the
requested count is at most `catalog size - 1`, with or without the
same-artist exclusion. -/
theorem c1_seed_never_in_results (df : List Track) (tid : String)
    (idx n : ℕ) (excl : Bool) (hfind : findTrackIdx? tid df = some idx)
    (hn : n ≤ df.length - 1) :
    idx ∉ seedTopIndices df idx n excl := by
  have hidx : idx < df.length := findTrackIdx?_lt hfind
  cases excl with
  | true =>
    rw [seedTopIndices_true]
    intro hmem
    rw [List.mem_map] at hmem
    obtain ⟨j, hj, hji⟩ := hmem
    have hj1 : j ∈ argsortDesc ((validIndices df idx).map
        (fun i => (seedSims df idx).getD i default)) :=
      (List.take_sublist n _).mem hj
    have hj2 : j < (validIndices df idx).length := by
      have := (mem_argsortDesc _ _).mp hj1
      simpa using this
    have := validIndices_spec df idx (validIndices_getD_mem df idx hj2)
    rw [hji] at this
    exact this.2.2 rfl
  | false =>
    intro hmem
    rw [seedTopIndices_false] at hmem
    set s2 := (seedSims df idx).set idx simNegOne with hs2
    have hlen2 : s2.length = df.length := by
      rw [hs2, List.length_set, seedSims_length]
    have hout : (argsortDesc s2).length = df.length := by
      rw [argsortDesc_length, hlen2]
    obtain ⟨m, hm, hget⟩ := List.getElem_of_mem hmem
    have hmn : m < n := by
      have := hm
      rw [List.length_take] at this
      omega
    have hm0 : m < (argsortDesc s2).length := by
      rw [hout]
      omega
    have hm1 : m + 1 < (argsortDesc s2).length := by
      rw [hout]
      omega
    rw [List.getElem_take] at hget
    have hgetm : (argsortDesc s2).getD m 0 = idx := by
      rw [List.getD_eq_getElem _ _ hm0]
      exact hget
    obtain ⟨hle, hne, _, hltb⟩ := argsortDesc_spec s2 (Nat.lt_succ_self m) hm1
    rw [hgetm] at hle hne
    set j := (argsortDesc s2).getD (m + 1) 0 with hj
    have hjdf : j < df.length := by rwa [hlen2] at hltb
    have hjidx : j ≠ idx := fun hcon => hne (hcon ▸ rfl)
    have hs2idx : s2.getD idx default = simNegOne := by
      rw [hs2, List.getD_eq_getElem _ _ (by rwa [List.length_set, seedSims_length])]
      exact List.getElem_set_self _
    have hs2j : s2.getD j default = (seedSims df idx).getD j default := by
      rw [hs2, List.getD_eq_getElem _ _ (by rwa [List.length_set, seedSims_length]),
        List.getElem_set_ne (fun hcon => hjidx hcon.symm),
        ← List.getD_eq_getElem _ default (by rwa [seedSims_length])]
    have hd : 0 ≤ (s2.getD j default).d := by
      rw [hs2j]
      exact seedSims_getD_d_nonneg df idx hjdf
    rcases hle with h | ⟨h, _⟩
    · rw [hs2idx] at h
      exact h (simNegOne_le hd)
    · rw [hs2idx] at h
      exact not_le_simNegOne hd h

theorem getRecommendations_eq_of_find {df : List Track} {tid : String}
    {idx : ℕ} (n : ℕ) (excl : Bool)
    (hfind : findTrackIdx? tid df = some idx) :
    getRecommendations df tid n excl =
      (seedTop df idx n excl).map (fun pr => (df.getD pr.1 default, pr.2)) := by
  unfold getRecommendations
  rw [hfind]

theorem seedTop_true_eq (df : List Track) (idx n : ℕ) :
    seedTop df idx n true =
      ((argsortDesc ((validIndices df idx).map
          (fun i => (seedSims df idx).getD i default))).take n).map
        (fun j => ((validIndices df idx).getD j 0,
          ((validIndices df idx).map
            (fun i => (seedSims df idx).getD i default)).getD j default)) :=
  rfl

theorem seedTop_false_eq (df : List Track) (idx n : ℕ) :
    seedTop df idx n false =
      ((argsortDesc ((seedSims df idx).set idx simNegOne)).take n).map
        (fun i => (i, ((seedSims df idx).set idx simNegOne).getD i default)) :=
  rfl

/-- C4: with `exclude_same_artist=True`, no returned record's `artists`
equals the seed row's `artists`. -/
theorem c4_no_shared_artist (df : List Track) (tid : String) (n idx : ℕ)
    (hfind : findTrackIdx? tid df = some idx) :
    ∀ pr ∈ getRecommendations df tid n true,
      pr.1.artists ≠ (df.getD idx default).artists := by
  intro pr hpr
  rw [getRecommendations_eq_of_find n true hfind, List.mem_map] at hpr
  obtain ⟨⟨i, s⟩, hmem, rfl⟩ := hpr
  rw [seedTop_true_eq, List.mem_map] at hmem
  obtain ⟨j, hj, hji⟩ := hmem
  have hj1 : j ∈ argsortDesc ((validIndices df idx).map
      (fun i => (seedSims df idx).getD i default)) :=
    (List.take_sublist n _).mem hj
  have hj2 : j < (validIndices df idx).length := by
    have := (mem_argsortDesc _ _).mp hj1
    simpa using this
  have hval := validIndices_spec df idx (validIndices_getD_mem df idx hj2)
  have hival : i = (validIndices df idx).getD j 0 := by
    have := congrArg Prod.fst hji
    simpa using this.symm
  rw [hival]
  simpa using hval.2.1

/-- The `(top_indices, similarity)` pairs of `get_mood_based_recommendations`:
empty for an unknown mood, otherwise the feature-query ranking of the
preset. -/
def moodTop (df : List Track) (mood : String) (n : ℕ) : List (ℕ × Sim) :=
  match moodPresets.lookup  (strLower mood) with
  | none => []
  | some preset => featTop df preset n

/-- Internal invariant of the executable model: similarities are
non-increasing by position, and positions with equal similarity hold a
later catalog row first.  The tie clause is a property of the fixed
`argsortAsc` refinement only (the program guarantees no tie order); the
exported sortedness statement keeps just the first, tie-order-invariant
conjunct. -/
def RankedDesc (l : List (ℕ × Sim)) : Prop :=
  l.Pairwise (fun a b => Sim.le b.2 a.2 ∧ (Sim.le a.2 b.2 → b.1 < a.1))

theorem rankedDesc_take_argsort (s : List Sim) (n : ℕ) :
    RankedDesc (((argsortDesc s).take n).map
      (fun i => (i, s.getD i default))) := by
  rw [RankedDesc, List.pairwise_map, List.pairwise_iff_getElem]
  intro a b ha hb hab
  have hb1 : b < (argsortDesc s).length :=
    lt_of_lt_of_le hb (by rw [List.length_take]; exact min_le_right _ _)
  have ha1 : a < (argsortDesc s).length := lt_trans hab hb1
  obtain ⟨hle, hne, _, _⟩ := argsortDesc_spec s hab hb1
  rw [List.getD_eq_getElem _ _ ha1, List.getD_eq_getElem _ _ hb1] at hle hne
  rw [List.getElem_take, List.getElem_take]
  rcases hle with h | ⟨h1, h2, h3⟩
  · constructor
    · rcases Sim.le_total (s.getD (argsortDesc s)[b] default)
        (s.getD (argsortDesc s)[a] default) with h' | h'
      · exact h'
      · exact absurd h' h
    · intro hcon
      exact absurd hcon h
  · exact ⟨h1, fun _ => lt_of_le_of_ne h3 (fun hcon => hne hcon.symm)⟩

theorem rankedDesc_take_argsort_map (s : List Sim) (valid : List ℕ)
    (hmono : valid.Pairwise (· < ·)) (n : ℕ) :
    RankedDesc (((argsortDesc (valid.map
        (fun i => s.getD i default))).take n).map
      (fun j => (valid.getD j 0,
        (valid.map (fun i => s.getD i default)).getD j default))) := by
  set vs := valid.map (fun i => s.getD i default) with hvs
  rw [RankedDesc, List.pairwise_map, List.pairwise_iff_getElem]
  intro a b ha hb hab
  have hb1 : b < (argsortDesc vs).length :=
    lt_of_lt_of_le hb (by rw [List.length_take]; exact min_le_right _ _)
  have ha1 : a < (argsortDesc vs).length := lt_trans hab hb1
  obtain ⟨hle, hne, hlta, hltb⟩ := argsortDesc_spec vs hab hb1
  rw [List.getD_eq_getElem _ _ ha1, List.getD_eq_getElem _ _ hb1] at hle hne
  rw [List.getD_eq_getElem _ _ ha1] at hlta
  rw [List.getD_eq_getElem _ _ hb1] at hltb
  rw [List.getElem_take, List.getElem_take]
  have hlen : vs.length = valid.length := by
    rw [hvs]
    exact List.length_map _ _
  have hlta' : (argsortDesc vs)[a] < valid.length := lt_of_lt_of_eq hlta hlen
  have hltb' : (argsortDesc vs)[b] < valid.length := lt_of_lt_of_eq hltb hlen
  rcases hle with h | ⟨h1, h2, h3⟩
  · constructor
    · rcases Sim.le_total (vs.getD (argsortDesc vs)[b] default)
        (vs.getD (argsortDesc vs)[a] default) with h' | h'
      · exact h'
      · exact absurd h' h
    · intro hcon
      exact absurd hcon h
  · refine ⟨h1, fun _ => ?_⟩
    have hlt : (argsortDesc vs)[b] < (argsortDesc vs)[a] :=
      lt_of_le_of_ne h3 (fun hcon => hne (hcon ▸ rfl))
    rw [List.getD_eq_getElem _ _ hltb', List.getD_eq_getElem _ _ hlta']
    exact (List.pairwise_iff_getElem.mp hmono) _ _ hltb' hlta' hlt

theorem validIndices_pairwise_lt (df : List Track) (idx : ℕ) :
    (validIndices df idx).Pairwise (· < ·) :=
  List.Pairwise.sublist (List.filter_sublist _) (List.pairwise_lt_range df.length)

theorem rankedDesc_seedTop (df : List Track) (idx n : ℕ) (excl : Bool) :
    RankedDesc (seedTop df idx n excl) := by
  cases excl with
  | false =>
    rw [seedTop_false_eq]
    exact rankedDesc_take_argsort _ n
  | true =>
    rw [seedTop_true_eq]
    exact rankedDesc_take_argsort_map (seedSims df idx) (validIndices df idx)
      (validIndices_pairwise_lt df idx) n

theorem rankedDesc_featTop (df : List Track) (fd : List (String × ℚ))
    (n : ℕ) : RankedDesc (featTop df fd n) :=
  rankedDesc_take_argsort (featSims df fd) n

theorem rankedDesc_map_scores (df : List Track) {l : List (ℕ × Sim)}
    (h : RankedDesc l) :
    (l.map (fun pr => (df.getD pr.1 default, pr.2))).Pairwise
      (fun a b => Sim.le b.2 a.2) := by
  rw [List.pairwise_map]
  exact h.imp (fun hab => hab.1)

/-- C3 (amended): every recommendation query (seed-based, vector-based and
mood-based) returns its rows with similarity scores non-increasing by
position.  No order among rows with equal similarity is guaranteed — the
unstable default `np.argsort` specifies none, and in particular the
original claim's catalog-row tie order fails (see the counterexample).
The first conjunct states the sortedness for every output `np.argsort`
may produce, independent of the tie order (`IsArgsortDescOf`); the
remaining conjuncts instantiate it for the engine's query paths. -/
theorem c3_scores_nonincreasing :
    (∀ (s : List Sim) (out : List ℕ) (n : ℕ), IsArgsortDescOf s out →
      ((out.take n).map (fun i => s.getD i default)).Pairwise
        (fun a b => Sim.le b a)) ∧
    (∀ (df : List Track) (idx n : ℕ) (excl : Bool),
      (seedTop df idx n excl).Pairwise (fun a b => Sim.le b.2 a.2)) ∧
    (∀ (df : List Track) (fd : List (String × ℚ)) (n : ℕ),
      (featTop df fd n).Pairwise (fun a b => Sim.le b.2 a.2)) ∧
    (∀ (df : List Track) (mood : String) (n : ℕ),
      (moodTop df mood n).Pairwise (fun a b => Sim.le b.2 a.2)) ∧
    (∀ (df : List Track) (tid : String) (n : ℕ) (excl : Bool),
      (getRecommendations df tid n excl).Pairwise
        (fun a b => Sim.le b.2 a.2)) ∧
    (∀ (df : List Track) (fd : List (String × ℚ)) (n : ℕ),
      (getRecommendationsByFeatures df fd n).Pairwise
        (fun a b => Sim.le b.2 a.2)) ∧
    (∀ (df : List Track) (mood : String) (n : ℕ),
      (getMoodBasedRecommendations df mood n).Pairwise
        (fun a b => Sim.le b.2 a.2)) := by
  have hseed : ∀ (df : List Track) (idx n : ℕ) (excl : Bool),
      (seedTop df idx n excl).Pairwise (fun a b => Sim.le b.2 a.2) :=
    fun df idx n excl =>
      List.Pairwise.imp (fun hab => hab.1) (rankedDesc_seedTop df idx n excl)
  have hfeat : ∀ (df : List Track) (fd : List (String × ℚ)) (n : ℕ),
      (featTop df fd n).Pairwise (fun a b => Sim.le b.2 a.2) :=
    fun df fd n =>
      List.Pairwise.imp (fun hab => hab.1) (rankedDesc_featTop df fd n)
  refine ⟨?_, hseed, hfeat, ?_, ?_, ?_, ?_⟩
  · intro s out n h
    rw [List.pairwise_map]
    exact List.Pairwise.sublist (List.take_sublist n out) h.2
  · intro df mood n
    unfold moodTop
    cases moodPresets.lookup (strLower mood) with
    | none => exact List.Pairwise.nil
    | some preset => exact hfeat df preset n
  · intro df tid n excl
    unfold getRecommendations
    cases findTrackIdx? tid df with
    | none => exact List.Pairwise.nil
    | some idx =>
      exact rankedDesc_map_scores df (rankedDesc_seedTop df idx n excl)
  · intro df fd n
    exact rankedDesc_map_scores df (rankedDesc_featTop df fd n)
  · intro df mood n
    unfold getMoodBasedRecommendations
    cases moodPresets.lookup (strLower mood) with
    | none => exact List.Pairwise.nil
    | some preset =>
      exact rankedDesc_map_scores df (rankedDesc_featTop df preset n)

/-- The number of catalog rows (the seed included) whose `artists` equals
the seed row's `artists`. -/
def sameArtistCount (df : List Track) (idx : ℕ) : ℕ :=
  ((List.range df.length).filter
    (fun i => (df.getD i default).artists == (df.getD idx default).artists)).length

theorem length_filter_add_length_filter_not (l : List ℕ) (p : ℕ → Bool) :
    (l.filter p).length + (l.filter (fun i => !(p i))).length = l.length := by
  induction l with
  | nil => rfl
  | cons x xs ih =>
    cases h : p x <;> simp [List.filter, h] <;> omega

theorem validIndices_length (df : List Track) (idx : ℕ)
    (hidx : idx < df.length) :
    (validIndices df idx).length = df.length - sameArtistCount df idx := by
  have hcongr : validIndices df idx = (List.range df.length).filter
      (fun i => (df.getD i default).artists != (df.getD idx default).artists) := by
    unfold validIndices
    apply List.filter_congr
    intro i _
    by_cases hi : i = idx
    · subst hi
      simp
    · simp [hi]
  have hnot : (List.range df.length).filter
      (fun i => !((df.getD i default).artists != (df.getD idx default).artists)) =
      (List.range df.length).filter
      (fun i => (df.getD i default).artists == (df.getD idx default).artists) := by
    apply List.filter_congr
    intro i _
    simp [bne]
  have := length_filter_add_length_filter_not (List.range df.length)
    (fun i => (df.getD i default).artists != (df.getD idx default).artists)
  rw [hnot] at this
  rw [hcongr]
  unfold sameArtistCount
  rw [List.length_range] at this
  omega

theorem seedTop_length_false (df : List Track) (idx n : ℕ) :
    (seedTop df idx n false).length = min n df.length := by
  rw [seedTop_false_eq, List.length_map, List.length_take, argsortDesc_length,
    List.length_set, seedSims_length]

theorem seedTop_length_true (df : List Track) (idx n : ℕ)
    (hidx : idx < df.length) :
    (seedTop df idx n true).length =
      min n (df.length - sameArtistCount df idx) := by
  rw [seedTop_true_eq, List.length_map, List.length_take, argsortDesc_length,
    List.length_map, validIndices_length df idx hidx]

/-- C5 (amended): without the artist exclusion `get_recommendations`
returns `min(K, catalog_size)` rows (the seed itself fills the last slot
when `K` reaches the catalog size); with the exclusion it returns
`min(K, catalog_size - same_artist_count)` rows, where `same_artist_count`
counts every row sharing the seed's `artists` value, the seed included. -/
theorem c5_result_length (df : List Track) (tid : String) (n idx : ℕ)
    (hfind : findTrackIdx? tid df = some idx) :
    (getRecommendations df tid n false).length = min n df.length ∧
    (getRecommendations df tid n true).length =
      min n (df.length - sameArtistCount df idx) := by
  have hidx : idx < df.length := findTrackIdx?_lt hfind
  constructor
  · rw [getRecommendations_eq_of_find n false hfind, List.length_map,
      seedTop_length_false]
  · rw [getRecommendations_eq_of_find n true hfind, List.length_map,
      seedTop_length_true df idx n hidx]

theorem foldl_min_mem (l : List ℚ) (a : ℚ) : l.foldl min a ∈ a :: l := by
  induction l generalizing a with
  | nil => simp
  | cons z zs ih =>
    show zs.foldl min (min a z) ∈ a :: z :: zs
    rcases List.mem_cons.mp (ih (min a z)) with h | h
    · rcases min_choice a z with h' | h'
      · exact List.mem_cons.mpr (Or.inl (h.trans h'))
      · exact List.mem_cons.mpr
          (Or.inr (List.mem_cons.mpr (Or.inl (h.trans h'))))
    · exact List.mem_cons.mpr (Or.inr (List.mem_cons.mpr (Or.inr h)))

theorem listMin_mem {l : List ℚ} (h : l ≠ []) : listMin l ∈ l := by
  match l with
  | y :: ys =>
    show ys.foldl min y ∈ y :: ys
    exact foldl_min_mem ys y

theorem dotProd_comm (a b : List ℚ) : dotProd a b = dotProd b a := by
  induction a generalizing b with
  | nil => rcases b <;> simp [dotProd]
  | cons x a ih =>
    match b with
    | [] => simp [dotProd]
    | y :: b =>
      unfold dotProd
      rw [ih b, mul_comm]

/-- C6: the degenerate numeric cases degrade to defined neutral values
instead of raising: a zero-variance feature column min-max-normalizes to
`0` on every catalog row, and a pair of vectors one of which has zero
norm gets cosine similarity exactly `0` (sklearn replaces the zero norm
by `1` instead of dividing by it). -/
theorem c6_degenerate_inputs_safe :
    (∀ (df : List Track) (j : ℕ) (t : Track), t ∈ df →
      (∀ u ∈ df, (feats u).getD j 0 = (feats t).getD j 0) →
      scaleValue df j ((feats t).getD j 0) = 0) ∧
    (∀ a b : List ℚ, sqNorm a = 0 →
      (cosineSim a b).d = 0 ∧ (cosineSim b a).d = 0 ∧
      Sim.le (cosineSim a b) simZero ∧ Sim.le simZero (cosineSim a b)) := by
  constructor
  · intro df j t ht hconst
    have hne : colVals df j ≠ [] := by
      unfold colVals
      simp only [ne_eq, List.map_eq_nil_iff]
      exact List.ne_nil_of_mem ht
    have hmem := listMin_mem hne
    unfold colVals at hmem
    rw [List.mem_map] at hmem
    obtain ⟨u, hu, hval⟩ := hmem
    have : colMin df j = (feats t).getD j 0 := by
      rw [show colMin df j = (feats u).getD j 0 from hval.symm]
      exact hconst u hu
    unfold scaleValue
    rw [this, sub_self, zero_div]
  · intro a b h
    have hab : dotProd a b = 0 := dotProd_eq_zero_of_sqNorm_eq_zero h b
    have hba : dotProd b a = 0 := by rw [dotProd_comm]; exact hab
    refine ⟨hab, hba, ?_, ?_⟩
    · exact Or.inl ⟨le_of_eq hab, le_rfl⟩
    · exact Or.inl ⟨le_rfl, le_of_eq hab.symm⟩

/-- C7: an unknown seed id makes `get_recommendations` return the empty
list (the `IndexError` is caught), and a mood absent from the preset table
after lowercasing makes `get_mood_based_recommendations` return the empty
list. -/
theorem c7_unknown_lookups_empty :
    (∀ (df : List Track) (tid : String) (n : ℕ) (excl : Bool),
      findTrackIdx? tid df = none → getRecommendations df tid n excl = []) ∧
    (∀ (df : List Track) (mood : String) (n : ℕ),
      moodPresets.lookup  (strLower mood) = none →
      getMoodBasedRecommendations df mood n = []) := by
  constructor
  · intro df tid n excl h
    unfold getRecommendations
    rw [h]
  · intro df mood n h
    unfold getMoodBasedRecommendations
    rw [h]

/-- The §4.2 defaults table of the specification, one default per feature
field name (modelled from the spec's words, to be compared with the
hard-coded defaults of `get_recommendations_by_features`). -/
def specDefault (name : String) : ℚ :=
  if name = "danceability" then 1/2
  else if name = "energy" then 1/2
  else if name = "loudness" then -10
  else if name = "speechiness" then 1/10
  else if name = "acousticness" then 1/2
  else if name = "instrumentalness" then 0
  else if name = "liveness" then 1/5
  else if name = "valence" then 1/2
  else if name = "tempo" then 120
  else 0

/-- C8: the full query vector assembled by
`get_recommendations_by_features` reads each field present in the input
mapping and falls back to the documented default for each absent field,
in the fixed `AUDIO_FEATURES` order. -/
theorem c8_query_vector_defaults (fd : List (String × ℚ)) :
    queryVector fd =
      audioFeatures.map (fun name => (fd.lookup name).getD (specDefault name)) := by
  rfl

theorem matchHere_literal {pat : List Char} (hp : '.' ∉ pat) :
    ∀ s : List Char, matchHere pat s = true ↔ pat <+: s := by
  induction pat with
  | nil =>
    intro s
    simp [matchHere, List.nil_prefix]
  | cons p ps ih =>
    intro s
    have hpd : (p == '.') = false := by
      rw [beq_eq_false_iff_ne]
      intro hcon
      exact hp (hcon ▸ List.mem_cons_self p ps)
    have hps : '.' ∉ ps := fun hcon => hp (List.mem_cons_of_mem p hcon)
    match s with
    | [] =>
      simp [matchHere]
    | c :: cs =>
      rw [matchHere, hpd, Bool.false_and, Bool.false_or, Bool.and_eq_true,
        beq_iff_eq, ih hps cs, List.cons_prefix_cons]

theorem regexSearch_literal {pat : List Char} (hp : '.' ∉ pat)
    (s : List Char) : regexSearch pat s = true ↔ pat <:+: s := by
  induction s with
  | nil =>
    rw [regexSearch, matchHere_literal hp]
    constructor
    · intro h
      exact h.isInfix
    · intro h
      have hnil : pat = [] := List.eq_nil_of_sublist_nil h.sublist
      rw [hnil]
  | cons c cs ih =>
    rw [regexSearch, Bool.or_eq_true, matchHere_literal hp, ih,
      List.infix_cons_iff]

/-- C9 (amended): `search_tracks` interprets the lowercased query as a
regular expression (pandas `str.contains` keeps its `regex=True` default).
For a query free of regex metacharacters — and over ASCII text, where the
per-character case folding agrees with Python's `lower()` — this is
exactly the claimed behaviour: a row is returned iff the lowercased query
occurs as a contiguous substring of its lowercased name or of its
lowercased artists field.  For metacharacter queries the substring
reading is wrong (see the counterexample: `"."` matches rows with no
literal dot). -/
theorem c9_search_literal_query (df : List Track) (q : String) (t : Track)
    (hq : ∀ c ∈ (strLower q).data, c ∉ regexMetachars)
    (_hascii : ∀ c ∈ q.data ++ t.track_name.data ++ t.artists.data,
      c.toNat < 128) :
    t ∈ searchTracks df q ↔
      t ∈ df ∧ ((strLower q).data <:+: (strLower t.track_name).data ∨
        (strLower q).data <:+: (strLower t.artists).data) := by
  have hdot : '.' ∉ (strLower q).data := fun hcon =>
    hq '.' hcon (by decide)
  unfold searchTracks
  rw [List.mem_filter]
  unfold matchesQuery
  rw [Bool.or_eq_true, regexSearch_literal hdot, regexSearch_literal hdot]

/-- C10: on any loaded catalog, searching for the empty string returns
every row in catalog order: the loader's sentinel fills leave no missing
`track_name`/`artists` (so the `na=False` guard never drops a row) and the
empty regex pattern matches at the start of every string. -/
theorem c10_empty_query_returns_catalog (rows : List RawRow) :
    searchTracks (load_full_dataset rows) "" = load_full_dataset rows := by
  unfold searchTracks
  apply List.filter_eq_self.mpr
  intro t _
  unfold matchesQuery
  have hq : (strLower "").data = [] := by decide
  rw [Bool.or_eq_true, hq]
  refine Or.inl ?_
  cases h : (strLower t.track_name).data with
  | nil => rw [regexSearch, matchHere]
  | cons c cs =>
    rw [regexSearch, matchHere, Bool.true_or]

theorem dropnaFeatures_eq (ts : List Track) : dropnaFeatures ts = ts :=
  List.filter_eq_self.mpr (fun _ _ => rfl)

theorem mem_of_mem_dedupById {ts : List Track} {t : Track}
    (h : t ∈ dedupById ts) : t ∈ ts := by
  induction ts using dedupById.induct with
  | case1 => simp [dedupById] at h
  | case2 u rest ih =>
    rw [dedupById] at h
    rcases List.mem_cons.mp h with rfl | h'
    · simp
    · exact List.mem_cons.mpr (Or.inr (List.mem_filter.mp (ih h')).1)

theorem dedupById_covers_id {ts : List Track} {u : Track} (hu : u ∈ ts) :
    ∃ t ∈ dedupById ts, t.track_id = u.track_id := by
  induction ts using dedupById.induct with
  | case1 => simp at hu
  | case2 v rest ih =>
    rw [dedupById]
    rcases List.mem_cons.mp hu with heq | h'
    · exact ⟨v, List.mem_cons.mpr (Or.inl rfl), by rw [heq]⟩
    · by_cases hid : u.track_id = v.track_id
      · exact ⟨v, by simp, hid.symm⟩
      · have hmem : u ∈ rest.filter (fun w => w.track_id ≠ v.track_id) :=
          List.mem_filter.mpr ⟨h', by simpa using hid⟩
        obtain ⟨t, ht, hteq⟩ := ih hmem
        exact ⟨t, List.mem_cons.mpr (Or.inr ht), hteq⟩

/-- C2 (amended): after `load()` every catalog item has a complete feature
vector, but not because defective rows are dropped: a missing or
non-numeric feature is coerced to `0` by `fillna(0)` *before* the `dropna`
runs, so the `dropna` removes nothing and the row is kept.  Every raw
row's id survives into the catalog (only duplicate ids are collapsed),
and every catalog item is the column-filled image of some raw row. -/
theorem c2_missing_features_kept_as_zero (rows : List RawRow) :
    (∀ r ∈ rows, ∃ t ∈ load_full_dataset rows, t.track_id = rawId r) ∧
    (∀ t ∈ load_full_dataset rows, ∃ r ∈ rows, t = coerceFill r) := by
  unfold load_full_dataset
  rw [dropnaFeatures_eq]
  constructor
  · intro r hr
    have : coerceFill r ∈ rows.map coerceFill := List.mem_map_of_mem _ hr
    obtain ⟨t, ht, hteq⟩ := dedupById_covers_id this
    exact ⟨t, ht, hteq⟩
  · intro t ht
    have := mem_of_mem_dedupById ht
    rw [List.mem_map] at this
    obtain ⟨r, hr, hreq⟩ := this
    exact ⟨r, hr, hreq.symm⟩

/-- A demo catalog: rows 0 and 2 share `artists` and features; row 1
differs in both. -/
def trackA : Track := ⟨"a", "Alpha", "X", "al", "g", 1, 1, 1, 0, 0, 0, 0, 0, 0, 0⟩

def trackB : Track := ⟨"b", "Beta", "Y", "al", "g", 1, 0, 0, 1, 1, 1, 1, 1, 1, 1⟩

def trackC : Track := ⟨"c", "Gamma", "X", "al", "g", 1, 1, 1, 0, 0, 0, 0, 0, 0, 0⟩

def demoDf : List Track := [trackA, trackB, trackC]

def demoDf1 : List Track := [trackA]

/-- Two rows with identical feature vectors but distinct ids, to exercise
similarity ties. -/
def tieA : Track := ⟨"a", "A", "X", "al", "g", 1, 1, 0, 0, 0, 0, 0, 0, 0, 0⟩

def tieB : Track := ⟨"b", "B", "Y", "al", "g", 1, 1, 0, 0, 0, 0, 0, 0, 0, 0⟩

def demoTieDf : List Track := [tieA, tieB]

/-- A raw row whose `danceability` is missing after coercion. -/
def demoRawMissing : RawRow :=
  ⟨some "x", none, some "Art", none, none, 5,
   none, some 1, some 2, some 3, some 4, some 5, some 6, some 7, some 8⟩

theorem c1_witness :
    findTrackIdx? "a" demoDf = some 0 ∧ 1 ≤ demoDf.length - 1 ∧
      0 ∉ seedTopIndices demoDf 0 1 false :=
  ⟨by decide, by decide,
   c1_seed_never_in_results demoDf "a" 0 1 false (by decide) (by decide)⟩

/-- The C2 claim as stated — a row with a missing feature is dropped — is
false: the single-row catalog built from `demoRawMissing` keeps the row. -/
theorem c2_counterexample :
    ¬ (∀ (rows : List RawRow) (r : RawRow), r ∈ rows → hasMissingFeature r →
        ¬ ∃ t ∈ load_full_dataset rows, t.track_id = rawId r) := by
  intro h
  exact h [demoRawMissing] demoRawMissing (List.mem_singleton.mpr rfl)
    (Or.inl rfl)
    ⟨coerceFill demoRawMissing,
     by simp [load_full_dataset, dedupById, dropnaFeatures], rfl⟩

theorem c2_witness :
    ∃ t ∈ load_full_dataset [demoRawMissing],
      t.track_id = rawId demoRawMissing :=
  (c2_missing_features_kept_as_zero [demoRawMissing]).1 demoRawMissing
    (List.mem_singleton.mpr rfl)

/-- The C3 claim as stated — ties appear in catalog row order — is false:
the two rows of `demoTieDf` have equal similarity to the query, yet row 1
is listed before row 0.  (On a two-element array numpy's argsort runs its
deterministic insertion sort, so the model's tie order is the program's
actual behaviour here: `np.argsort([x, x])` is `[0, 1]` and the `[::-1]`
slice reverses it.) -/
theorem c3_counterexample :
    featTopIndices demoTieDf [] 2 = [1, 0] ∧
    (featSims demoTieDf []).getD 0 default =
      (featSims demoTieDf []).getD 1 default := by
  constructor <;>
    norm_num [featTopIndices, featTop, featSims, queryVector, scaledFeatures,
      scaleRow, scaleValue, colMin, colMax, colScale, colVals, listMin,
      listMax, feats, audioFeatures, cosineSim, dotProd, sqNorm, sqNormGuard,
      argsortDesc, argsortAsc, idxLe, Sim.le, demoTieDf, tieA, tieB,
      List.insertionSort, List.orderedInsert, List.range, List.range.loop,
      List.getD_cons_zero, List.getD_cons_succ]

theorem c3_witness :
    IsArgsortDescOf [simZero, simNegOne] [0, 1] ∧
    ((([0, 1] : List ℕ).take 2).map
      (fun i => [simZero, simNegOne].getD i default)).Pairwise
        (fun a b => Sim.le b a) :=
  ⟨by decide, (c3_scores_nonincreasing).1 [simZero, simNegOne] [0, 1] 2
    (by decide)⟩

theorem c4_witness :
    findTrackIdx? "a" demoDf = some 0 ∧
    (trackB, (⟨0, 14, by norm_num⟩ : Sim)) ∈
      getRecommendations demoDf "a" 2 true ∧
    trackB.artists ≠ (demoDf.getD 0 default).artists := by
  have hmem : (trackB, (⟨0, 14, by norm_num⟩ : Sim)) ∈
      getRecommendations demoDf "a" 2 true := by
    norm_num [getRecommendations, findTrackIdx?, seedTop, seedSims,
      validIndices, scaledFeatures, scaleRow, scaleValue, colMin, colMax,
      colScale, colVals, listMin, listMax, feats, audioFeatures, cosineSim,
      dotProd, sqNorm, sqNormGuard, argsortDesc, argsortAsc, idxLe, Sim.le,
      demoDf, trackA, trackB, trackC, List.insertionSort, List.orderedInsert,
      List.range, List.range.loop, List.getD_cons_zero, List.getD_cons_succ,
      List.filter_cons, List.filter_nil, List.getElem?_cons_zero,
      List.getElem?_cons_succ, List.getD, Option.getD, Option.map]
    simp
  exact ⟨by decide, hmem,
    c4_no_shared_artist demoDf "a" 2 0 (by decide) _ hmem⟩

theorem c5_witness :
    findTrackIdx? "a" demoDf = some 0 ∧
    ((getRecommendations demoDf "a" 2 false).length = min 2 demoDf.length ∧
     (getRecommendations demoDf "a" 2 true).length =
       min 2 (demoDf.length - sameArtistCount demoDf 0)) :=
  ⟨by decide, c5_result_length demoDf "a" 2 0 (by decide)⟩

/-- The C5 claim as stated — length `min(K, catalog_size - 1)` without
exclusion — is false on a one-track catalog: the seed itself is returned. -/
theorem c5_counterexample :
    findTrackIdx? "a" demoDf1 = some 0 ∧
    (getRecommendations demoDf1 "a" 1 false).length = 1 ∧
    min 1 (demoDf1.length - 1) = 0 :=
  ⟨by decide, by decide, by decide⟩

theorem c6_witness :
    (tieA ∈ demoTieDf ∧
     (∀ u ∈ demoTieDf, (feats u).getD 0 0 = (feats tieA).getD 0 0) ∧
     scaleValue demoTieDf 0 ((feats tieA).getD 0 0) = 0) ∧
    (sqNorm [(0 : ℚ), 0] = 0 ∧
     (cosineSim [(0 : ℚ), 0] [1, 2]).d = 0 ∧
     (cosineSim [(1 : ℚ), 2] [0, 0]).d = 0 ∧
     Sim.le (cosineSim [(0 : ℚ), 0] [1, 2]) simZero ∧
     Sim.le simZero (cosineSim [(0 : ℚ), 0] [1, 2])) :=
  ⟨⟨by decide, by decide,
    (c6_degenerate_inputs_safe).1 demoTieDf 0 tieA (by decide) (by decide)⟩,
   ⟨by norm_num [sqNorm, dotProd],
    (c6_degenerate_inputs_safe).2 [0, 0] [1, 2]
      (by norm_num [sqNorm, dotProd])⟩⟩

theorem c7_witness :
    (findTrackIdx? "zzz" demoDf = none ∧
     getRecommendations demoDf "zzz" 5 false = []) ∧
    (moodPresets.lookup (strLower "Euphoric") = none ∧
     getMoodBasedRecommendations demoDf "Euphoric" 5 = []) :=
  ⟨⟨by decide, (c7_unknown_lookups_empty).1 demoDf "zzz" 5 false (by decide)⟩,
   ⟨by decide, (c7_unknown_lookups_empty).2 demoDf "Euphoric" 5 (by decide)⟩⟩


/-- The C9 claim as stated — membership iff substring containment, for
every query — is false of the regex-based `search_tracks`: the query `"."`
returns the track named `"Alpha"` although `"."` is not a contiguous
substring of `"alpha"` or of `"x"` (the `.` is a regex wildcard). -/
theorem c9_counterexample :
    ¬ (∀ (df : List Track) (q : String) (t : Track),
        t ∈ searchTracks df q ↔
          t ∈ df ∧ ((strLower q).data <:+: (strLower t.track_name).data ∨
            (strLower q).data <:+: (strLower t.artists).data)) := by
  intro h
  exact absurd (h [trackA] "." trackA) (by decide)

theorem c9_witness :
    (∀ c ∈ (strLower "alp").data, c ∉ regexMetachars) ∧
    (∀ c ∈ ("alp" : String).data ++ trackA.track_name.data ++
        trackA.artists.data, c.toNat < 128) ∧
    (trackA ∈ searchTracks demoDf "alp" ↔
      trackA ∈ demoDf ∧
        ((strLower "alp").data <:+: (strLower trackA.track_name).data ∨
         (strLower "alp").data <:+: (strLower trackA.artists).data)) :=
  ⟨by decide, by decide,
   c9_search_literal_query demoDf "alp" trackA (by decide) (by decide)⟩
